import Mathlib

set_option maxRecDepth 100000

/-!
Shallow embedding of the imagext windowed-filter engine (imagext.go):
the grayscale image data model, the row-window buffer (newLines /
shiftLines), per-pixel histogram construction (fillHistogram), the two
statistics (median, avarage) and the two in-place filters (ToMedian,
ToAvarage).  Machine bytes are Nat with explicit `% 256` where the Go
code uses uint8 arithmetic; fallible indexing (Go panics) is modelled
with Option, `none` standing for a runtime panic.
-/

namespace Imagext

/-- Image data model mirroring Go `image.Gray`: a bounding rectangle
(Rect.Min/Max), a row stride in bytes, and the flat pixel buffer. -/
structure GrayImg where
  minX : Int
  minY : Int
  maxX : Int
  maxY : Int
  stride : Int
  pix : List Nat
deriving DecidableEq, Repr

/-- Width of the image: `img.Rect.Max.X - img.Rect.Min.X`. -/
def imgWidth (img : GrayImg) : Int := img.maxX - img.minX

/-- Height of the image: `img.Rect.Max.Y - img.Rect.Min.Y`. -/
def imgHeight (img : GrayImg) : Int := img.maxY - img.minY

/-- The integers `a, a+1, ..., b-1` (empty when `b ≤ a`), the index
sequence of a Go `for y := a; y < b; y++` loop. -/
def intRange (a b : Int) : List Int :=
  (List.range (b - a).toNat).map (fun k : Nat => a + (k : Int))

/-- Go `pix[i] = v` for an int index: panics (none) when out of range. -/
def pixSet (p : List Nat) (i : Int) (v : Nat) : Option (List Nat) :=
  if 0 ≤ i ∧ i < (p.length : Int) then some (p.set i.toNat v) else none

/-- Go `line[i]` read at an int index: panics (none) when out of range. -/
def lineGet (line : List Nat) (i : Int) : Option Nat :=
  if 0 ≤ i then line.get? i.toNat else none

/-- Go slice expression `p[off : off+w : off+w]`: panics (none) unless
`0 ≤ off`, `0 ≤ w` and `off+w ≤ len(p)` (capacity taken to be length). -/
def rowSliceAt (p : List Nat) (off w : Int) : Option (List Nat) :=
  if 0 ≤ off ∧ 0 ≤ w ∧ off + w ≤ (p.length : Int) then
    some ((p.drop off.toNat).take w.toNat)
  else none

/-- Option-valued left fold: the sequential Go loop with a possible
panic at each step. -/
def optFold (f : σ → α → Option σ) : σ → List α → Option σ
  | s, [] => some s
  | s, a :: t =>
    match f s a with
    | none => none
    | some s1 => optFold f s1 t

/-- Option-valued map, building a list element by element. -/
def optMap (f : α → Option β) : List α → Option (List β)
  | [] => some []
  | a :: t =>
    match f a with
    | none => none
    | some b =>
      match optMap f t with
      | none => none
      | some bs => some (b :: bs)

/-- Go `hist[idx]++` on a `[]uint8` histogram: the stored count wraps
modulo 256; an index outside the histogram panics (none). -/
def histIncO (hist : List Nat) (idx : Nat) : Option (List Nat) :=
  if idx < hist.length then some (hist.set idx ((hist.getD idx 0 + 1) % 256)) else none

/-- Transcription of Go `fillHistogram`: reset the 256-bin histogram to
zero, then for every buffered line and every offset `j < size` increment
the bin of `line[x+j]`. -/
def fillHistogram (lines : List (List Nat)) (size : Nat) (x : Int) : Option (List Nat) :=
  optFold (fun h line =>
    optFold (fun h1 (j : Nat) =>
      match lineGet line (x + (j : Int)) with
      | none => none
      | some v => histIncO h1 v) h (List.range size)) (List.replicate 256 0) lines

/-- Transcription of Go `sum` applied to the slice `hist[a:b]`. -/
def sumRange (hist : List Nat) (a b : Nat) : Nat :=
  ((hist.drop a).take (b - a)).sum

/-- Transcription of the loop of Go `median`: bisection state
`(left, right, leftSumPrev, rightSumPrev)`.  The loop is given as a
structurally recursive function on an explicit iteration budget `fuel`;
every iteration strictly shrinks `right - left`, so any
`fuel ≥ right - left` yields the value of the Go while loop
(`medianLoop_fuel_indep` below proves the budget irrelevant). -/
def medianLoop (fuel : Nat) (hist : List Nat) (left right lsp rsp : Nat) : Nat :=
  match fuel with
  | 0 => 0
  | fuel + 1 =>
    if left < right then
      if left ≠ (left + right) / 2 then
        let middle := (left + right) / 2
        let leftSum := sumRange hist left middle
        let rightSum := sumRange hist middle right
        if lsp + leftSum > rightSum + rsp then
          medianLoop fuel hist left middle lsp (rsp + rightSum)
        else if lsp + leftSum < rightSum + rsp then
          medianLoop fuel hist middle right (lsp + leftSum) rsp
        else
          medianLoop fuel hist middle right lsp rsp
      else left
    else 0

/-- Transcription of Go `median`: bisection over `[0, len(hist))`,
with the returned value passing through the source's `uint8(left)`
cast, i.e. truncation modulo 256 (the post-loop `return 0` path is
unaffected by the truncation).  The budget `len(hist)` bounds the
initial `right - left`. -/
def median (hist : List Nat) : Nat :=
  medianLoop hist.length hist 0 hist.length 0 0 % 256

/-- Transcription of the accumulation loop of Go `avarage`:
`sum += uint(i) * uint(v)` with `i` the running bin index. -/
def wSumFrom : Nat → List Nat → Nat
  | _, [] => 0
  | i, v :: t => i * v + wSumFrom (i + 1) t

/-- Transcription of Go `avarage`: weighted sum, divide by `size*size`,
then the `uint8` conversion truncates modulo 256. -/
def avarage (hist : List Nat) (size : Nat) : Nat :=
  wSumFrom 0 hist / (size * size) % 256

/-- Length of one padded buffer line (`width + size - 1`), all white. -/
def whiteRow (img : GrayImg) (size : Nat) : List Nat :=
  List.replicate ((imgWidth img + (size : Int) - 1).toNat) 255

/-- A copied image row inside a buffer line: `size/2` white columns on
the left, the row, `size - 1 - size/2` white columns on the right. -/
def padRow (size : Nat) (row : List Nat) : List Nat :=
  List.replicate (size / 2) 255 ++ row ++ List.replicate (size - 1 - size / 2) 255

/-- Transcription of Go `newLines`: `size` all-white lines of length
`width + size - 1` (a negative length panics), with image rows
`0, 1, ...` copied into buffer slots `size/2 - 1` down to `0` while
those rows exist. -/
def newLines (img : GrayImg) (size : Nat) : Option (List (List Nat)) :=
  if imgWidth img + (size : Int) - 1 < 0 then none
  else
    optMap (fun i : Nat =>
      if (i : Int) < (size / 2 : Nat) ∧
          img.minY + ((size / 2 : Nat) - 1 - (i : Int)) < img.maxY then
        match rowSliceAt img.pix (((size / 2 : Nat) - 1 - (i : Int)) * img.stride) (imgWidth img) with
        | none => none
        | some row => some (padRow size row)
      else some (whiteRow img size)) (List.range size)

/-- Transcription of Go `shiftLines`: `copy(lines[1:], lines[0:n-1])`
followed by `lines[0] = line0`, i.e. the new line enters at slot 0 and
the line at the last slot is dropped. -/
def shiftLines (lines : List (List Nat)) (line0 : List Nat) : List (List Nat) :=
  line0 :: lines.dropLast

/-- The Go local `limit := img.Rect.Max.Y - offLines` bounding the main
loop of both filters. -/
def mainLimit (img : GrayImg) (size : Nat) : Int :=
  img.maxY - ((size / 2 : Nat) : Int)

/-- One iteration of the main loop shared by `ToMedian` and `ToAvarage`
(they differ only in the statistic `stat`): copy image row `y + size/2`
from the current pixel buffer into the window buffer, shift, then for
every column compute the statistic and overwrite the output pixel. -/
def mainStep (stat : List Nat → Nat) (img : GrayImg) (size : Nat)
    (st : List Nat × List (List Nat)) (y : Int) : Option (List Nat × List (List Nat)) :=
  match rowSliceAt st.1 ((y - img.minY) * img.stride + ((size / 2 : Nat) : Int) * img.stride)
      (imgWidth img) with
  | none => none
  | some row =>
    match optFold (fun p x =>
        match fillHistogram (shiftLines st.2 (padRow size row)) size x with
        | none => none
        | some h => pixSet p ((y - img.minY) * img.stride + (x - img.minX)) (stat h))
        st.1 (intRange img.minX img.maxX) with
    | none => none
    | some p1 => some (p1, shiftLines st.2 (padRow size row))

/-- The seeded buffer followed by the main loop over output rows
`[Min.Y, yEnd)`; both filters run it with `yEnd = mainLimit`. -/
def runMain (stat : List Nat → Nat) (img : GrayImg) (size : Nat) (yEnd : Int) :
    Option (List Nat × List (List Nat)) :=
  match newLines img size with
  | none => none
  | some lines0 => optFold (mainStep stat img size) (img.pix, lines0) (intRange img.minY yEnd)

/-- One iteration of the tail loop of Go `ToMedian`: the loop advances
`x` and `y` together (a diagonal walk), shifting in an all-white line
and overwriting the single pixel `(x, y)`. -/
def tailStepMedian (img : GrayImg) (size : Nat)
    (st : List Nat × List (List Nat)) (t : Nat) : Option (List Nat × List (List Nat)) :=
  match fillHistogram (shiftLines st.2 (whiteRow img size)) size (img.minX + (t : Int)) with
  | none => none
  | some h =>
    match pixSet st.1 ((mainLimit img size + (t : Int) - img.minY) * img.stride +
        (img.minX + (t : Int) - img.minX)) (median h) with
    | none => none
    | some p2 => some (p2, shiftLines st.2 (whiteRow img size))

/-- Transcription of Go `ToMedian`: no-op unless the area is positive
and `size > 1`; main loop to `limit`, then the diagonal tail loop
running while `x < Max.X && y < Max.Y`. -/
def toMedian (img : GrayImg) (size : Nat) : Option GrayImg :=
  if imgWidth img * imgHeight img > 0 ∧ 1 < size then
    match runMain median img size (mainLimit img size) with
    | none => none
    | some (pix1, lines1) =>
      match optFold (tailStepMedian img size) (pix1, lines1)
          (List.range (min (imgWidth img) (img.maxY - mainLimit img size)).toNat) with
      | none => none
      | some (pix2, _) => some { img with pix := pix2 }
  else some img

/-- One iteration of the tail loop of Go `ToAvarage`: shift in an
all-white line, then overwrite every pixel of output row `y`. -/
def tailStepAvarage (img : GrayImg) (size : Nat)
    (st : List Nat × List (List Nat)) (y : Int) : Option (List Nat × List (List Nat)) :=
  match optFold (fun p x =>
      match fillHistogram (shiftLines st.2 (whiteRow img size)) size x with
      | none => none
      | some h => pixSet p ((y - img.minY) * img.stride + (x - img.minX)) (avarage h size))
      st.1 (intRange img.minX img.maxX) with
  | none => none
  | some p2 => some (p2, shiftLines st.2 (whiteRow img size))

/-- Transcription of Go `ToAvarage`: no-op unless the area is positive
and `size > 1`; main loop to `limit`, then a full-row tail loop over
`[limit, Max.Y)`. -/
def toAvarage (img : GrayImg) (size : Nat) : Option GrayImg :=
  if imgWidth img * imgHeight img > 0 ∧ 1 < size then
    match runMain (fun h => avarage h size) img size (mainLimit img size) with
    | none => none
    | some (pix1, lines1) =>
      match optFold (tailStepAvarage img size) (pix1, lines1)
          (intRange (mainLimit img size) img.maxY) with
      | none => none
      | some (pix2, _) => some { img with pix := pix2 }
  else some img

/-- Formalisation of the spec section 4.4 bisection procedure, written
after the spec text: loop while `left < right`, terminate with `left`
when `left` equals the midpoint, otherwise compare
`leftSumPrev + leftSum` against `rightSumPrev + rightSum` (sums taken
over the half-open index intervals) and narrow toward the heavier half,
the exact tie leaving `leftSumPrev` unaccumulated. -/
def medianSpecLoop (hist : List Nat) (left right lsp rsp : Nat) : Nat :=
  if left < right then
    if _heq : left = (left + right) / 2 then left
    else
      let middle := (left + right) / 2
      let leftSum := ∑ k in Finset.Ico left middle, hist.getD k 0
      let rightSum := ∑ k in Finset.Ico middle right, hist.getD k 0
      if lsp + leftSum > rsp + rightSum then
        medianSpecLoop hist left middle lsp (rsp + rightSum)
      else if lsp + leftSum < rsp + rightSum then
        medianSpecLoop hist middle right (lsp + leftSum) rsp
      else
        medianSpecLoop hist middle right lsp rsp
  else 0
termination_by right - left
decreasing_by
  all_goals omega

/-- The spec section 4.4 procedure started on `left = 0`,
`right = number of bins`, both prefix sums zero. -/
def medianSpec (hist : List Nat) : Nat :=
  medianSpecLoop hist 0 hist.length 0 0

/-- The image row `r` as it is sliced out of the pixel buffer:
bytes `[(r - Min.Y) * stride, (r - Min.Y) * stride + width)`. -/
def origRow (img : GrayImg) (r : Int) : List Nat :=
  (img.pix.drop ((r - img.minY) * img.stride).toNat).take (imgWidth img).toNat

/-- The buffer line the spec associates with conceptual image row `r`:
the padded real row when `Min.Y ≤ r < Max.Y`, an all-white line
otherwise. -/
def windowRow (img : GrayImg) (size : Nat) (r : Int) : List Nat :=
  if img.minY ≤ r ∧ r < img.maxY then padRow size (origRow img r) else whiteRow img size

/-- The buffer contents after the advance for output row `y`: slot `i`
holds conceptual image row `y + size/2 - i` (newest row first). -/
def bufferSpec (img : GrayImg) (size : Nat) (y : Int) : List (List Nat) :=
  (List.range size).map (fun i : Nat => windowRow img size (y + ((size / 2 : Nat) : Int) - (i : Int)))

/-- Offsets of the pixel buffer addressed by some in-rectangle
coordinate pair, i.e. `(y - Min.Y) * stride + (x - Min.X)`. -/
def InRectOffset (img : GrayImg) (j : Nat) : Prop :=
  ∃ x y : Int, img.minX ≤ x ∧ x < img.maxX ∧ img.minY ≤ y ∧ y < img.maxY ∧
    (j : Int) = (y - img.minY) * img.stride + (x - img.minX)

/-! ### Basic lemmas about the loop combinators -/

theorem intRange_length (a b : Int) : (intRange a b).length = (b - a).toNat := by
  simp [intRange]

theorem intRange_eq_cons {a b : Int} (h : a < b) :
    intRange a b = a :: intRange (a + 1) b := by
  have h1 : (b - a).toNat = (b - (a + 1)).toNat + 1 := by omega
  unfold intRange
  rw [h1, List.range_succ_eq_map, List.map_cons, List.map_map]
  refine congrArg₂ _ (by simp) ?_
  refine List.map_congr_left ?_
  intro k _
  simp [Nat.succ_eq_add_one]
  ring

theorem mem_intRange {y a b : Int} (h : y ∈ intRange a b) : a ≤ y ∧ y < b := by
  unfold intRange at h
  rw [List.mem_map] at h
  obtain ⟨k, hk, rfl⟩ := h
  rw [List.mem_range] at hk
  omega

theorem optFold_invariant {σ α : Type} (f : σ → α → Option σ) (P : σ → Prop) :
    ∀ (l : List α) (s0 s1 : σ),
      (∀ s a s2, a ∈ l → P s → f s a = some s2 → P s2) →
      P s0 → optFold f s0 l = some s1 → P s1 := by
  intro l
  induction l with
  | nil =>
    intro s0 s1 _ h0 hf
    unfold optFold at hf
    cases hf
    exact h0
  | cons a t ih =>
    intro s0 s1 hstep h0 hf
    unfold optFold at hf
    cases hfa : f s0 a with
    | none => rw [hfa] at hf; cases hf
    | some s2 =>
      rw [hfa] at hf
      exact ih s2 s1 (fun s b s3 hb => hstep s b s3 (List.mem_cons_of_mem a hb))
        (hstep s0 a s2 (List.mem_cons_self a t) h0 hfa) hf

theorem optFold_intRange_ind {σ : Type} (f : σ → Int → Option σ) (I : Int → σ → Prop)
    (b : Int) :
    ∀ (n : Nat) (a : Int) (s0 s1 : σ), (b - a).toNat = n → a ≤ b →
      (∀ y s s2, a ≤ y → y < b → I y s → f s y = some s2 → I (y + 1) s2) →
      I a s0 → optFold f s0 (intRange a b) = some s1 → I b s1 := by
  intro n
  induction n with
  | zero =>
    intro a s0 s1 hn hab _ h0 hf
    have hba : b = a := by omega
    subst hba
    have : intRange b b = [] := by
      unfold intRange
      simp
    rw [this] at hf
    unfold optFold at hf
    cases hf
    exact h0
  | succ n ih =>
    intro a s0 s1 hn hab hstep h0 hf
    have hab1 : a < b := by omega
    rw [intRange_eq_cons hab1] at hf
    unfold optFold at hf
    cases hfa : f s0 a with
    | none => rw [hfa] at hf; cases hf
    | some s2 =>
      rw [hfa] at hf
      exact ih (a + 1) s2 s1 (by omega) (by omega)
        (fun y s s3 hy hyb => hstep y s s3 (by omega) hyb)
        (hstep a s0 s2 (le_refl a) hab1 h0 hfa) hf

theorem optMap_get? {α β : Type} (f : α → Option β) :
    ∀ (l : List α) (res : List β), optMap f l = some res →
      res.length = l.length ∧ ∀ (i : Nat) (a : α), l.get? i = some a → res.get? i = f a := by
  intro l
  induction l with
  | nil =>
    intro res h
    unfold optMap at h
    cases h
    exact ⟨rfl, fun i a hi => by cases hi⟩
  | cons a t ih =>
    intro res h
    unfold optMap at h
    cases hfa : f a with
    | none => rw [hfa] at h; cases h
    | some b =>
      rw [hfa] at h
      cases hrest : optMap f t with
      | none => rw [hrest] at h; cases h
      | some bs =>
        rw [hrest] at h
        cases h
        obtain ⟨hlen, hget⟩ := ih bs hrest
        refine ⟨by simp [hlen], ?_⟩
        intro i c hi
        cases i with
        | zero =>
          simp only [List.get?] at hi ⊢
          cases hi
          exact hfa.symm
        | succ i =>
          simp only [List.get?] at hi ⊢
          exact hget i c hi

theorem pixSet_some {p : List Nat} {i : Int} {v : Nat} {p1 : List Nat}
    (h : pixSet p i v = some p1) :
    0 ≤ i ∧ i < (p.length : Int) ∧ p1.length = p.length ∧
      ∀ j : Nat, (j : Int) ≠ i → p1.get? j = p.get? j := by
  unfold pixSet at h
  by_cases hc : 0 ≤ i ∧ i < (p.length : Int)
  · rw [if_pos hc] at h
    cases h
    refine ⟨hc.1, hc.2, by simp, ?_⟩
    intro j hj
    have hji : i.toNat ≠ j := by omega
    simp [List.get?_eq_getElem?, List.getElem?_set_ne hji]
  · rw [if_neg hc] at h
    cases h

theorem slice_eq_of_agree {p q : List Nat}
    {T off w : Int} (hag : ∀ j : Nat, T ≤ (j : Int) → p.get? j = q.get? j)
    (hT : T ≤ off) (h0 : 0 ≤ off) :
    (p.drop off.toNat).take w.toNat = (q.drop off.toNat).take w.toNat := by
  apply List.ext_getElem?
  intro n
  rw [List.getElem?_take, List.getElem?_take, List.getElem?_drop, List.getElem?_drop]
  by_cases hn : n < w.toNat
  · rw [if_pos hn, if_pos hn]
    have := hag (off.toNat + n) (by omega)
    simpa [List.get?_eq_getElem?] using this
  · rw [if_neg hn, if_neg hn]

/-! ### Sum lemmas used for the spec refinement of median -/

theorem take_sum_eq (l : List Nat) : ∀ n : Nat,
    (l.take n).sum = ∑ i in Finset.range n, l.getD i 0 := by
  induction l with
  | nil => intro n; simp
  | cons v t ih =>
    intro n
    cases n with
    | zero => simp
    | succ n =>
      rw [List.take_succ_cons, List.sum_cons, ih n, Finset.sum_range_succ']
      simp [Nat.add_comm]

theorem sumRange_eq (hist : List Nat) (a b : Nat) :
    sumRange hist a b = ∑ k in Finset.Ico a b, hist.getD k 0 := by
  unfold sumRange
  rw [take_sum_eq, Finset.sum_Ico_eq_sum_range]
  refine Finset.sum_congr rfl ?_
  intro i _
  simp [List.getD_eq_getElem?_getD, List.getElem?_drop]

theorem medianLoop_eq_specLoop (hist : List Nat) :
    ∀ (n left right lsp rsp : Nat), right - left ≤ n →
      medianLoop n hist left right lsp rsp = medianSpecLoop hist left right lsp rsp := by
  intro n
  induction n with
  | zero =>
    intro l r a b h
    have hlr : ¬ l < r := by omega
    rw [medianLoop, medianSpecLoop, if_neg hlr]
  | succ n ih =>
    intro l r a b h
    rw [medianLoop, medianSpecLoop]
    by_cases hlr : l < r
    · rw [if_pos hlr, if_pos hlr]
      by_cases hm : l = (l + r) / 2
      · rw [if_neg (by omega), dif_pos hm]
      · rw [if_pos hm, dif_neg hm]
        have hmid1 : l < (l + r) / 2 := by omega
        have hmid2 : (l + r) / 2 < r := by omega
        simp only [sumRange_eq]
        rw [Nat.add_comm (∑ k in Finset.Ico ((l + r) / 2) r, hist.getD k 0) b]
        by_cases hgt : a + ∑ k in Finset.Ico l ((l + r) / 2), hist.getD k 0 >
            b + ∑ k in Finset.Ico ((l + r) / 2) r, hist.getD k 0
        · rw [if_pos hgt, if_pos hgt]
          exact ih l ((l + r) / 2) a (b + _) (by omega)
        · rw [if_neg hgt, if_neg hgt]
          by_cases hlt : a + ∑ k in Finset.Ico l ((l + r) / 2), hist.getD k 0 <
              b + ∑ k in Finset.Ico ((l + r) / 2) r, hist.getD k 0
          · rw [if_pos hlt, if_pos hlt]
            exact ih ((l + r) / 2) r _ b (by omega)
          · rw [if_neg hlt, if_neg hlt]
            exact ih ((l + r) / 2) r a b (by omega)
    · rw [if_neg hlr, if_neg hlr]

theorem medianLoop_fuel_indep (hist : List Nat) (n m left right lsp rsp : Nat)
    (hn : right - left ≤ n) (hm : right - left ≤ m) :
    medianLoop n hist left right lsp rsp = medianLoop m hist left right lsp rsp := by
  rw [medianLoop_eq_specLoop hist n left right lsp rsp hn,
    medianLoop_eq_specLoop hist m left right lsp rsp hm]

theorem medianLoop_lt (hist : List Nat) :
    ∀ (n left right lsp rsp : Nat), right - left ≤ n → left < right →
      medianLoop n hist left right lsp rsp < right := by
  intro n
  induction n with
  | zero => intro l r a b h hlr; omega
  | succ n ih =>
    intro l r a b h hlr
    rw [medianLoop]
    rw [if_pos hlr]
    by_cases hm : l = (l + r) / 2
    · rw [if_neg (by omega)]
      omega
    · rw [if_pos hm]
      have hmid1 : l < (l + r) / 2 := by omega
      have hmid2 : (l + r) / 2 < r := by omega
      by_cases hgt : a + sumRange hist l ((l + r) / 2) > sumRange hist ((l + r) / 2) r + b
      · rw [if_pos hgt]
        exact lt_trans (ih l ((l + r) / 2) a _ (by omega) hmid1) hmid2
      · rw [if_neg hgt]
        by_cases hlt : a + sumRange hist l ((l + r) / 2) < sumRange hist ((l + r) / 2) r + b
        · rw [if_pos hlt]
          exact ih ((l + r) / 2) r _ b (by omega) hmid2
        · rw [if_neg hlt]
          exact ih ((l + r) / 2) r a b (by omega) hmid2

theorem wSumFrom_le : ∀ (i : Nat) (l : List Nat), wSumFrom i l ≤ (i + l.length - 1) * l.sum := by
  intro i l
  induction l generalizing i with
  | nil => simp [wSumFrom]
  | cons v t ih =>
    unfold wSumFrom
    rw [List.sum_cons, List.length_cons]
    have h1 : wSumFrom (i + 1) t ≤ (i + 1 + t.length - 1) * t.sum := ih (i + 1)
    have h2 : i + 1 + t.length - 1 = i + (t.length + 1) - 1 := by omega
    rw [h2] at h1
    have h3 : i * v ≤ (i + (t.length + 1) - 1) * v := Nat.mul_le_mul_right v (by omega)
    calc i * v + wSumFrom (i + 1) t
        ≤ (i + (t.length + 1) - 1) * v + (i + (t.length + 1) - 1) * t.sum :=
          Nat.add_le_add h3 h1
      _ = (i + (t.length + 1) - 1) * (v + t.sum) := (Nat.mul_add _ v t.sum).symm

/-! ### Claim theorems -/

/-- C1 (counterexample): on a 1000-bin histogram whose only mass sits
in bin 999, the spec section 4.4 procedure terminates with
`left = 999`, but the Go code returns `uint8(999) = 231`, so on
histograms of more than 256 bins `median` does not return the
procedure's `left`. -/
theorem median_truncates_counterexample :
    median (List.replicate 999 0 ++ [5]) = 231 ∧
    medianSpec (List.replicate 999 0 ++ [5]) = 999 ∧ (231 : Nat) ≠ 999 := by
  have hlen : (List.replicate 999 0 ++ [5] : List Nat).length = 1000 := by simp
  have heq := medianLoop_eq_specLoop (List.replicate 999 0 ++ [5]) 1000 0 1000 0 0 (by omega)
  refine ⟨by decide, ?_, by decide⟩
  unfold medianSpec
  rw [hlen, ← heq]
  decide

/-- C1 (amended): `median` follows the spec section 4.4 bisection
procedure (left `0`, right the bin count, termination at
`left = middle`, heavier-half narrowing with the
`leftSumPrev`/`rightSumPrev` accumulation and the non-accumulating tie
branch) with the final `uint8` truncation: on any number of bins the
returned value is the procedure's result reduced modulo 256; on
histograms of at most 256 bins — in particular the 256-bin histograms
the filters build — the truncation is the identity and `median`
follows the procedure exactly; and the three 10-bin literal scenarios
return 3, 0 and 6. -/
theorem median_follows_spec_bisection_mod :
    (∀ hist : List Nat, median hist = medianSpec hist % 256) ∧
    (∀ hist : List Nat, hist.length ≤ 256 → median hist = medianSpec hist) ∧
    median [2, 0, 0, 7, 0, 1, 3, 0, 0, 0] = 3 ∧
    median [7, 0, 0, 2, 0, 1, 3, 0, 0, 0] = 0 ∧
    median [7, 0, 0, 2, 0, 1, 3, 0, 0, 10] = 6 := by
  have hmod : ∀ hist : List Nat, median hist = medianSpec hist % 256 := by
    intro hist
    unfold median medianSpec
    rw [medianLoop_eq_specLoop hist hist.length 0 hist.length 0 0 (by omega)]
  refine ⟨hmod, ?_, by decide, by decide, by decide⟩
  intro hist hle
  have hlt : medianSpec hist < 256 := by
    unfold medianSpec
    rw [← medianLoop_eq_specLoop hist hist.length 0 hist.length 0 0 (by omega)]
    cases Nat.eq_zero_or_pos hist.length with
    | inl h0 =>
      rw [h0, medianLoop]
      omega
    | inr hpos =>
      exact lt_of_lt_of_le (medianLoop_lt hist hist.length 0 hist.length 0 0 (by omega) hpos) hle
  rw [hmod hist, Nat.mod_eq_of_lt hlt]

/-- Instantiation of the amended C1 statement: on a 10-bin histogram
the truncation is the identity and `median` equals the spec
procedure. -/
theorem median_follows_spec_bisection_mod_witness :
    median [2, 0, 0, 7, 0, 1, 3, 0, 0, 0] = medianSpec [2, 0, 0, 7, 0, 1, 3, 0, 0, 0] :=
  median_follows_spec_bisection_mod.2.1 [2, 0, 0, 7, 0, 1, 3, 0, 0, 0] (by decide)

/-- C2 (failing input): a fully white 16 by 16 window at `size = 16`
makes every one of the 256 increments hit bin 255, whose `uint8` count
wraps to 0, so the resulting histogram is all zero and its total is
`0`, not `size * size = 256`. -/
theorem fillHistogram_total_overflows :
    fillHistogram (List.replicate 16 (List.replicate 16 255)) 16 0 =
      some (List.replicate 256 0) ∧
    (List.replicate 256 (0 : Nat)).sum = 0 ∧ (0 : Nat) ≠ 16 * 16 := by
  refine ⟨by decide, by simp, by decide⟩

/-- C3 (failing inputs): on the all-white 1 by 1 image with `size = 4`
both filters hit a negative pixel offset in the tail loop (a Go
index-out-of-range panic, modelled as `none`) instead of returning the
image all white; and on the all-white 1 by 9 image with `size = 16`
`ToAvarage` completes but writes 0 to every pixel because the `uint8`
histogram counts wrap. -/
theorem allwhite_filters_fail :
    toAvarage { minX := 0, minY := 0, maxX := 1, maxY := 1, stride := 1, pix := [255] } 4 = none ∧
    toMedian { minX := 0, minY := 0, maxX := 1, maxY := 1, stride := 1, pix := [255] } 4 = none ∧
    toAvarage { minX := 0, minY := 0, maxX := 1, maxY := 9, stride := 1, pix := List.replicate 9 255 } 16 = some { minX := 0, minY := 0, maxX := 1, maxY := 9, stride := 1, pix := List.replicate 9 0 } := by
  refine ⟨by decide, by decide, by decide⟩

/-- C4 (failing input): on a 2 by 2 all-black image with `size = 2` the
tail region is output row 1; `ToMedian` walks it diagonally and only
overwrites pixel `(0,1)`, leaving pixel `(1,1)` at its original value 0,
while `ToAvarage` overwrites the full row. -/
theorem toMedian_tail_is_diagonal :
    toMedian { minX := 0, minY := 0, maxX := 2, maxY := 2, stride := 2, pix := [0, 0, 0, 0] } 2 =
      some { minX := 0, minY := 0, maxX := 2, maxY := 2, stride := 2, pix := [255, 0, 255, 0] } ∧
    [255, 0, 255, 0].get? 3 = some 0 ∧
    toAvarage { minX := 0, minY := 0, maxX := 2, maxY := 2, stride := 2, pix := [0, 0, 0, 0] } 2 =
      some { minX := 0, minY := 0, maxX := 2, maxY := 2, stride := 2, pix := [127, 0, 191, 127] } := by
  refine ⟨by decide, by decide, by decide⟩

/-- C5 (counterexample): for `size = 2` on a 3-row image the main loop
range `[Min.Y, limit)` has 2 rows and the tail range `[limit, Max.Y)`
has 1 row, but `size - half - 1 = 0`, so the tail region is not the
last `size - half - 1` rows. -/
theorem tail_region_count_counterexample :
    (intRange 0 (mainLimit { minX := 0, minY := 0, maxX := 1, maxY := 3, stride := 1, pix := [10, 20, 30] } 2)).length = 2 ∧
    (intRange (mainLimit { minX := 0, minY := 0, maxX := 1, maxY := 3, stride := 1, pix := [10, 20, 30] } 2) 3).length = 1 ∧
    2 - 2 / 2 - 1 = 0 ∧ (1 : Nat) ≠ 0 := by
  refine ⟨by decide, by decide, by decide, by decide⟩

/-- C5 (amended): the main loop of both filters runs over
`[Min.Y, Max.Y - size/2)`, i.e. until `half = size/2` rows remain, and
the tail region consists of the last `size/2` rows (which equals
`size - half - 1` exactly for odd `size`). -/
theorem main_tail_region_bounds (img : GrayImg) (size : Nat) :
    (intRange img.minY (mainLimit img size)).length =
      (imgHeight img - ((size / 2 : Nat) : Int)).toNat ∧
    (intRange (mainLimit img size) img.maxY).length = size / 2 ∧
    (size % 2 = 1 → size / 2 = size - size / 2 - 1) := by
  unfold mainLimit imgHeight
  refine ⟨?_, ?_, by omega⟩
  · rw [intRange_length]
    congr 1
    ring
  · rw [intRange_length]
    omega

/-- Instantiation of the amended C5 boundary arithmetic at `size = 2`
on a 3-row image. -/
theorem main_tail_region_bounds_witness :
    (intRange 0 (mainLimit { minX := 0, minY := 0, maxX := 1, maxY := 3, stride := 1, pix := [10, 20, 30] } 2)).length = ((3 : Int) - ((2 / 2 : Nat) : Int)).toNat :=
  (main_tail_region_bounds { minX := 0, minY := 0, maxX := 1, maxY := 3, stride := 1, pix := [10, 20, 30] } 2).1

/-- C7 (counterexample): on the histogram with 255 in bin 255 and
`size = 2` the weighted sum is 65025, its floor quotient by `size² = 4`
is 16256, but `avarage` returns the `uint8` truncation 128, which is
not the floor quotient (and the floor quotient is not in `[0, 255]`). -/
theorem avarage_truncates_counterexample :
    avarage (List.replicate 255 0 ++ [255]) 2 = 128 ∧
    wSumFrom 0 (List.replicate 255 0 ++ [255]) = 65025 ∧
    (65025 : Nat) / (2 * 2) = 16256 ∧
    avarage (List.replicate 255 0 ++ [255]) 2 ≠ 16256 ∧ ¬ (16256 : Nat) ≤ 255 := by
  refine ⟨by decide, by decide, by decide, by decide, by decide⟩

/-- C7 (amended): `avarage` returns the floor quotient of the weighted
sum by `size²` truncated modulo 256; whenever the histogram has at most
256 bins and total count at most `size²` (as for every window
histogram) the truncation is the identity, so the result is exactly the
floor quotient and lies in `[0, 255]`. -/
theorem avarage_floor_mod (hist : List Nat) (size : Nat) (h2 : 2 ≤ size) :
    avarage hist size = wSumFrom 0 hist / (size * size) % 256 ∧
    (hist.length ≤ 256 → hist.sum ≤ size * size →
      avarage hist size = wSumFrom 0 hist / (size * size) ∧ avarage hist size ≤ 255) := by
  refine ⟨rfl, ?_⟩
  intro hlen hsum
  have hW : wSumFrom 0 hist ≤ 255 * (size * size) := by
    have h1 : wSumFrom 0 hist ≤ (0 + hist.length - 1) * hist.sum := wSumFrom_le 0 hist
    have h2' : (0 + hist.length - 1) * hist.sum ≤ 255 * (size * size) :=
      Nat.mul_le_mul (by omega) hsum
    omega
  have hpos : 0 < size * size := by positivity
  have hdiv : wSumFrom 0 hist / (size * size) ≤ 255 := by
    have := Nat.div_le_div_right (c := size * size) hW
    rwa [Nat.mul_div_cancel 255 hpos] at this
  have hmod : wSumFrom 0 hist / (size * size) % 256 = wSumFrom 0 hist / (size * size) :=
    Nat.mod_eq_of_lt (by omega)
  unfold avarage
  exact ⟨hmod, by omega⟩

/-- Instantiation of the amended C7 statement on a window histogram
with total 4 at `size = 2`. -/
theorem avarage_floor_mod_witness :
    avarage (List.replicate 255 0 ++ [4]) 2 = wSumFrom 0 (List.replicate 255 0 ++ [4]) / (2 * 2) ∧
    avarage (List.replicate 255 0 ++ [4]) 2 ≤ 255 :=
  (avarage_floor_mod (List.replicate 255 0 ++ [4]) 2 (by decide)).2 (by simp) (by simp)

/-- C8: with zero image area or window size at most 1 both filters
return the image unchanged (same rectangle, stride and pixel buffer)
and produce no error or panic. -/
theorem filters_noop_on_degenerate (img : GrayImg) (size : Nat)
    (h : imgWidth img * imgHeight img = 0 ∨ size ≤ 1) :
    toMedian img size = some img ∧ toAvarage img size = some img := by
  have hg : ¬ (imgWidth img * imgHeight img > 0 ∧ 1 < size) := by
    rintro ⟨h1, h2⟩
    rcases h with h | h
    · rw [h] at h1
      exact lt_irrefl 0 h1
    · omega
  unfold toMedian toAvarage
  rw [if_neg hg, if_neg hg]
  exact ⟨rfl, rfl⟩

/-- Instantiation of C8 on a zero-width image. -/
theorem filters_noop_on_degenerate_witness :
    toMedian { minX := 0, minY := 0, maxX := 0, maxY := 3, stride := 1, pix := [1, 2, 3] } 5 = some { minX := 0, minY := 0, maxX := 0, maxY := 3, stride := 1, pix := [1, 2, 3] } ∧
    toAvarage { minX := 0, minY := 0, maxX := 0, maxY := 3, stride := 1, pix := [1, 2, 3] } 5 = some { minX := 0, minY := 0, maxX := 0, maxY := 3, stride := 1, pix := [1, 2, 3] } :=
  filters_noop_on_degenerate _ 5 (Or.inl (by decide))

/-- C9: the bisection of `median` terminates (the definition recurses on
the strictly decreasing measure `right - left`), and on a 256-bin
histogram the returned value always lies in `[0, 255]`. -/
theorem median_in_range (hist : List Nat) (h : hist.length = 256) : median hist ≤ 255 := by
  have := medianLoop_lt hist hist.length 0 hist.length 0 0 (by omega) (by omega)
  unfold median
  omega

/-- Instantiation of C9 on the zero histogram with 256 bins. -/
theorem median_in_range_witness : median (List.replicate 256 0) ≤ 255 :=
  median_in_range (List.replicate 256 0) (by simp)

/-! ### Frame machinery: every successful write lands on an
in-rectangle offset -/

theorem pixSet_frame_inRect (img : GrayImg) (hws : imgWidth img ≤ img.stride)
    {x y : Int} (hx1 : img.minX ≤ x) (hx2 : x < img.maxX) (hy2 : y < img.maxY)
    {p : List Nat} {v : Nat} {p1 : List Nat}
    (h : pixSet p ((y - img.minY) * img.stride + (x - img.minX)) v = some p1) :
    p1.length = p.length ∧ ∀ j : Nat, ¬ InRectOffset img j → p1.get? j = p.get? j := by
  obtain ⟨hnn, _, hlen, hfr⟩ := pixSet_some h
  refine ⟨hlen, ?_⟩
  intro j hj
  by_cases hji : (j : Int) = (y - img.minY) * img.stride + (x - img.minX)
  · exfalso
    apply hj
    have hyge : img.minY ≤ y := by
      by_contra hlt
      push_neg at hlt
      have hwpos : (0 : Int) < imgWidth img := by unfold imgWidth; omega
      have hmul : (y - img.minY) * img.stride ≤ (-1) * img.stride :=
        mul_le_mul_of_nonneg_right (by omega) (by omega)
      have hxw : x - img.minX ≤ img.stride - 1 := by unfold imgWidth at hws; omega
      linarith
    exact ⟨x, y, hx1, hx2, hyge, hy2, hji⟩
  · exact hfr j hji

theorem optFold_write_frame (img : GrayImg) (hws : imgWidth img ≤ img.stride)
    (g : List Nat → Nat) (lines : List (List Nat)) (size : Nat) {y : Int}
    (hy2 : y < img.maxY) (p0 p1 : List Nat)
    (h : optFold (fun p x =>
        match fillHistogram lines size x with
        | none => none
        | some hh => pixSet p ((y - img.minY) * img.stride + (x - img.minX)) (g hh))
      p0 (intRange img.minX img.maxX) = some p1) :
    p1.length = p0.length ∧ ∀ j : Nat, ¬ InRectOffset img j → p1.get? j = p0.get? j := by
  refine optFold_invariant _
    (fun p => p.length = p0.length ∧ ∀ j : Nat, ¬ InRectOffset img j → p.get? j = p0.get? j)
    _ p0 p1 ?_ ⟨rfl, fun _ _ => rfl⟩ h
  intro s x s2 hmem hP hf
  obtain ⟨hx1, hx2⟩ := mem_intRange hmem
  cases hfh : fillHistogram lines size x with
  | none => rw [hfh] at hf; cases hf
  | some hh =>
    rw [hfh] at hf
    obtain ⟨hl2, hfr2⟩ := pixSet_frame_inRect img hws hx1 hx2 hy2 hf
    exact ⟨hl2.trans hP.1, fun j hj => (hfr2 j hj).trans (hP.2 j hj)⟩

theorem runMain_frame (stat : List Nat → Nat) (img : GrayImg) (size : Nat)
    (hws : imgWidth img ≤ img.stride) {p1 : List Nat} {L1 : List (List Nat)}
    (h : runMain stat img size (mainLimit img size) = some (p1, L1)) :
    p1.length = img.pix.length ∧
      ∀ j : Nat, ¬ InRectOffset img j → p1.get? j = img.pix.get? j := by
  unfold runMain at h
  cases hnl : newLines img size with
  | none => rw [hnl] at h; cases h
  | some lines0 =>
    rw [hnl] at h
    have hstep : ∀ s y s2, y ∈ intRange img.minY (mainLimit img size) →
        (s.1.length = img.pix.length ∧
          ∀ j : Nat, ¬ InRectOffset img j → s.1.get? j = img.pix.get? j) →
        mainStep stat img size s y = some s2 →
        s2.1.length = img.pix.length ∧
          ∀ j : Nat, ¬ InRectOffset img j → s2.1.get? j = img.pix.get? j := by
      intro s y s2 hmem hP hf
      obtain ⟨_, hylt⟩ := mem_intRange hmem
      have hy2 : y < img.maxY := by
        unfold mainLimit at hylt
        omega
      unfold mainStep at hf
      split at hf
      · cases hf
      · rename_i row hrs
        split at hf
        · cases hf
        · rename_i q hof
          cases hf
          obtain ⟨hl2, hfr2⟩ := optFold_write_frame img hws stat
            (shiftLines s.2 (padRow size row)) size hy2 s.1 q hof
          exact ⟨hl2.trans hP.1, fun j hj => (hfr2 j hj).trans (hP.2 j hj)⟩
    exact optFold_invariant (mainStep stat img size)
      (fun st => st.1.length = img.pix.length ∧
        ∀ j : Nat, ¬ InRectOffset img j → st.1.get? j = img.pix.get? j)
      (intRange img.minY (mainLimit img size)) (img.pix, lines0) (p1, L1) hstep
      ⟨rfl, fun _ _ => rfl⟩ h

theorem tailMedian_frame (img : GrayImg) (size : Nat)
    (hws : imgWidth img ≤ img.stride) {p1 p2 : List Nat} {L1 L2 : List (List Nat)}
    (h : optFold (tailStepMedian img size) (p1, L1)
      (List.range (min (imgWidth img) (img.maxY - mainLimit img size)).toNat) = some (p2, L2)) :
    p2.length = p1.length ∧
      ∀ j : Nat, ¬ InRectOffset img j → p2.get? j = p1.get? j := by
  have hstep : ∀ s t s2,
      t ∈ List.range (min (imgWidth img) (img.maxY - mainLimit img size)).toNat →
      (s.1.length = p1.length ∧
        ∀ j : Nat, ¬ InRectOffset img j → s.1.get? j = p1.get? j) →
      tailStepMedian img size s t = some s2 →
      s2.1.length = p1.length ∧
        ∀ j : Nat, ¬ InRectOffset img j → s2.1.get? j = p1.get? j := by
    intro s t s2 hmem hP hf
    have ht := List.mem_range.mp hmem
    unfold imgWidth mainLimit at ht
    have hx1 : img.minX ≤ img.minX + (t : Int) := by omega
    have hx2 : img.minX + (t : Int) < img.maxX := by omega
    have hy2 : mainLimit img size + (t : Int) < img.maxY := by
      unfold mainLimit
      omega
    unfold tailStepMedian at hf
    split at hf
    · cases hf
    · rename_i hh hfh
      split at hf
      · cases hf
      · rename_i q hps
        cases hf
        obtain ⟨hl2, hfr2⟩ := pixSet_frame_inRect img hws hx1 hx2 hy2 hps
        exact ⟨hl2.trans hP.1, fun j hj => (hfr2 j hj).trans (hP.2 j hj)⟩
  exact optFold_invariant (tailStepMedian img size)
    (fun st => st.1.length = p1.length ∧
      ∀ j : Nat, ¬ InRectOffset img j → st.1.get? j = p1.get? j)
    (List.range (min (imgWidth img) (img.maxY - mainLimit img size)).toNat) (p1, L1) (p2, L2)
    hstep ⟨rfl, fun _ _ => rfl⟩ h

theorem tailAvarage_frame (img : GrayImg) (size : Nat)
    (hws : imgWidth img ≤ img.stride) {p1 p2 : List Nat} {L1 L2 : List (List Nat)}
    (h : optFold (tailStepAvarage img size) (p1, L1)
      (intRange (mainLimit img size) img.maxY) = some (p2, L2)) :
    p2.length = p1.length ∧
      ∀ j : Nat, ¬ InRectOffset img j → p2.get? j = p1.get? j := by
  have hstep : ∀ s y s2, y ∈ intRange (mainLimit img size) img.maxY →
      (s.1.length = p1.length ∧
        ∀ j : Nat, ¬ InRectOffset img j → s.1.get? j = p1.get? j) →
      tailStepAvarage img size s y = some s2 →
      s2.1.length = p1.length ∧
        ∀ j : Nat, ¬ InRectOffset img j → s2.1.get? j = p1.get? j := by
    intro s y s2 hmem hP hf
    obtain ⟨_, hy2⟩ := mem_intRange hmem
    unfold tailStepAvarage at hf
    split at hf
    · cases hf
    · rename_i q hof
      cases hf
      obtain ⟨hl2, hfr2⟩ := optFold_write_frame img hws (fun hh => avarage hh size)
        (shiftLines s.2 (whiteRow img size)) size hy2 s.1 q hof
      exact ⟨hl2.trans hP.1, fun j hj => (hfr2 j hj).trans (hP.2 j hj)⟩
  exact optFold_invariant (tailStepAvarage img size)
    (fun st => st.1.length = p1.length ∧
      ∀ j : Nat, ¬ InRectOffset img j → st.1.get? j = p1.get? j)
    (intRange (mainLimit img size) img.maxY) (p1, L1) (p2, L2)
    hstep ⟨rfl, fun _ _ => rfl⟩ h

/-- C10: both filters change only pixel-buffer bytes at offsets
`(y - Min.Y) * stride + (x - Min.X)` with `(x, y)` inside the
rectangle; in particular when `stride` is at least the width (e.g.
exceeds it), the slack bytes of every row are unchanged, and the
rectangle, stride and buffer length are unchanged. -/
theorem filters_write_only_inside_rect (img : GrayImg) (size : Nat) (img2 : GrayImg)
    (hws : imgWidth img ≤ img.stride)
    (h : toMedian img size = some img2 ∨ toAvarage img size = some img2) :
    img2.minX = img.minX ∧ img2.minY = img.minY ∧ img2.maxX = img.maxX ∧
      img2.maxY = img.maxY ∧ img2.stride = img.stride ∧
      img2.pix.length = img.pix.length ∧
      ∀ j : Nat, ¬ InRectOffset img j → img2.pix.get? j = img.pix.get? j := by
  rcases h with h | h
  · unfold toMedian at h
    split at h
    · split at h
      · cases h
      · rename_i p1 L1 hrm
        split at h
        · cases h
        · rename_i p2 L2 htl
          cases h
          obtain ⟨hl1, hfr1⟩ := runMain_frame median img size hws hrm
          obtain ⟨hl2, hfr2⟩ := tailMedian_frame img size hws htl
          exact ⟨rfl, rfl, rfl, rfl, rfl, hl2.trans hl1,
            fun j hj => (hfr2 j hj).trans (hfr1 j hj)⟩
    · cases h
      exact ⟨rfl, rfl, rfl, rfl, rfl, rfl, fun _ _ => rfl⟩
  · unfold toAvarage at h
    split at h
    · split at h
      · cases h
      · rename_i p1 L1 hrm
        split at h
        · cases h
        · rename_i p2 L2 htl
          cases h
          obtain ⟨hl1, hfr1⟩ := runMain_frame (fun hh => avarage hh size) img size hws hrm
          obtain ⟨hl2, hfr2⟩ := tailAvarage_frame img size hws htl
          exact ⟨rfl, rfl, rfl, rfl, rfl, hl2.trans hl1,
            fun j hj => (hfr2 j hj).trans (hfr1 j hj)⟩
    · cases h
      exact ⟨rfl, rfl, rfl, rfl, rfl, rfl, fun _ _ => rfl⟩

/-- Instantiation of C10 on a 1 by 1 image with stride 2: the slack
byte behind the single row keeps its value 9, and the stride is
unchanged. -/
theorem filters_write_only_inside_rect_witness :
    ({ minX := 0, minY := 0, maxX := 1, maxY := 1, stride := 2, pix := [255, 9] } :
        GrayImg).pix.get? 1 =
      ({ minX := 0, minY := 0, maxX := 1, maxY := 1, stride := 2, pix := [7, 9] } :
        GrayImg).pix.get? 1 := by
  have hfr := filters_write_only_inside_rect
    { minX := 0, minY := 0, maxX := 1, maxY := 1, stride := 2, pix := [7, 9] } 2
    { minX := 0, minY := 0, maxX := 1, maxY := 1, stride := 2, pix := [255, 9] }
    (by decide) (Or.inl (by decide))
  refine hfr.2.2.2.2.2.2 1 ?_
  rintro ⟨x, y, hx1, hx2, hy1, hy2, he⟩
  dsimp only at hx1 hx2 hy1 hy2 he
  omega

/-! ### Buffer tracking: which image row sits in which buffer slot -/

theorem bufferSpec_length (img : GrayImg) (size : Nat) (y : Int) :
    (bufferSpec img size y).length = size := by
  simp [bufferSpec]

theorem bufferSpec_get? (img : GrayImg) (size : Nat) (y : Int) {i : Nat} (hi : i < size) :
    (bufferSpec img size y).get? i =
      some (windowRow img size (y + ((size / 2 : Nat) : Int) - (i : Int))) := by
  simp [bufferSpec, List.get?_eq_getElem?, List.getElem?_range hi]

theorem bufferSpec_shift (img : GrayImg) (size : Nat) (hs : 1 ≤ size) (y : Int) :
    shiftLines (bufferSpec img size (y - 1)) (windowRow img size (y + ((size / 2 : Nat) : Int)))
      = bufferSpec img size y := by
  unfold shiftLines
  apply List.ext_getElem?
  intro j
  cases j with
  | zero =>
    rw [List.getElem?_cons_zero]
    unfold bufferSpec
    rw [List.getElem?_map, List.getElem?_range (by omega : 0 < size)]
    simp only [Option.map_some']
    congr 2
    simp
  | succ j =>
    rw [List.getElem?_cons_succ, List.getElem?_dropLast]
    rw [bufferSpec_length]
    unfold bufferSpec
    by_cases hj : j < size - 1
    · rw [if_pos hj]
      rw [List.getElem?_map, List.getElem?_map]
      rw [List.getElem?_range (by omega : j < size), List.getElem?_range (by omega : j + 1 < size)]
      simp only [Option.map_some']
      congr 2
      push_cast
      ring
    · rw [if_neg hj]
      rw [List.getElem?_map]
      rw [List.getElem?_eq_none (by simp; omega)]
      rfl

theorem newLines_bufferSpec (img : GrayImg) (size : Nat) {L0 : List (List Nat)}
    (h : newLines img size = some L0) :
    L0 = bufferSpec img size (img.minY - 1) := by
  unfold newLines at h
  split at h
  · cases h
  · obtain ⟨hlen, hget⟩ := optMap_get? _ (List.range size) L0 h
    rw [List.length_range] at hlen
    apply List.ext_getElem?
    intro i
    rw [← List.get?_eq_getElem?, ← List.get?_eq_getElem?]
    by_cases hi : i < size
    · have hr : (List.range size).get? i = some i := by
        rw [List.get?_eq_getElem?]
        exact List.getElem?_range hi
      have hfi := hget i i hr
      by_cases hcond : (i : Int) < (size / 2 : Nat) ∧
          img.minY + ((size / 2 : Nat) - 1 - (i : Int)) < img.maxY
      · rw [if_pos hcond] at hfi
        cases hsl : rowSliceAt img.pix (((size / 2 : Nat) - 1 - (i : Int)) * img.stride)
            (imgWidth img) with
        | none =>
          rw [hsl] at hfi
          have hne : L0.get? i ≠ none := by
            rw [List.get?_eq_get (by omega : i < L0.length)]
            simp
          exact absurd hfi hne
        | some row =>
          rw [hsl] at hfi
          rw [hfi, bufferSpec_get? img size _ hi]
          have hr2 : row = origRow img (img.minY - 1 + ((size / 2 : Nat) : Int) - (i : Int)) := by
            unfold rowSliceAt at hsl
            split at hsl
            · injection hsl with hrow
              unfold origRow
              have harg : img.minY - 1 + ((size / 2 : Nat) : Int) - (i : Int) - img.minY =
                  (size / 2 : Nat) - 1 - (i : Int) := by ring
              rw [harg]
              exact hrow.symm
            · cases hsl
          unfold windowRow
          rw [if_pos ⟨by omega, by omega⟩, hr2]
      · rw [if_neg hcond] at hfi
        rw [hfi, bufferSpec_get? img size _ hi]
        unfold windowRow
        rw [if_neg (by omega)]
    · rw [List.get?_eq_getElem?, List.get?_eq_getElem?]
      rw [List.getElem?_eq_none (by omega), List.getElem?_eq_none (by rw [bufferSpec_length]; omega)]

theorem optFold_write_above (img : GrayImg) (hws : imgWidth img ≤ img.stride)
    (g : List Nat → Nat) (lines : List (List Nat)) (size : Nat) (y : Int)
    (p0 p1 : List Nat)
    (h : optFold (fun p x =>
        match fillHistogram lines size x with
        | none => none
        | some hh => pixSet p ((y - img.minY) * img.stride + (x - img.minX)) (g hh))
      p0 (intRange img.minX img.maxX) = some p1) :
    p1.length = p0.length ∧
      ∀ j : Nat, (y + 1 - img.minY) * img.stride ≤ (j : Int) → p1.get? j = p0.get? j := by
  refine optFold_invariant _ (fun p => p.length = p0.length ∧
      ∀ j : Nat, (y + 1 - img.minY) * img.stride ≤ (j : Int) → p.get? j = p0.get? j)
    _ p0 p1 ?_ ⟨rfl, fun _ _ => rfl⟩ h
  intro s x s2 hmem hP hf
  obtain ⟨hx1, hx2⟩ := mem_intRange hmem
  cases hfh : fillHistogram lines size x with
  | none => rw [hfh] at hf; cases hf
  | some hh =>
    rw [hfh] at hf
    obtain ⟨_, _, hlen, hfr⟩ := pixSet_some hf
    refine ⟨hlen.trans hP.1, ?_⟩
    intro j hj
    have hring : (y + 1 - img.minY) * img.stride = (y - img.minY) * img.stride + img.stride := by
      ring
    have hxw : x - img.minX < img.stride := by
      unfold imgWidth at hws
      omega
    have hlt : (y - img.minY) * img.stride + (x - img.minX) <
        (y + 1 - img.minY) * img.stride := by
      rw [hring]
      linarith
    have hne : (j : Int) ≠ (y - img.minY) * img.stride + (x - img.minX) := by
      intro heq
      rw [← heq] at hlt
      linarith
    exact (hfr j hne).trans (hP.2 j hj)

/-- C6 (counterexample): on the 3-row one-column image with pixel
values 10, 20, 30 and `size = 3` (half = 1), the buffer after the
advance for output row 0 holds padded image row 1 at slot 0 and the
synthetic white line at slot 2, whereas the claim predicts slot 0 to
represent image row `0 - half + 0 = -1`, a synthetic white line; and
`shiftLines` inserts the new line at slot 0 (dropping the last slot),
not into the last slot. -/
theorem buffer_shift_order_counterexample :
    runMain median { minX := 0, minY := 0, maxX := 1, maxY := 3, stride := 1, pix := [10, 20, 30] } 3 1 = some (([255, 20, 30] : List Nat), ([[255, 20, 255], [255, 10, 255], [255, 255, 255]] : List (List Nat))) ∧
    ([[255, 20, 255], [255, 10, 255], [255, 255, 255]] : List (List Nat)).get? 0 ≠
      some (whiteRow { minX := 0, minY := 0, maxX := 1, maxY := 3, stride := 1, pix := [10, 20, 30] } 3) ∧
    shiftLines [[1], [2], [3]] [9] ≠ [[2], [3], [9]] := by
  refine ⟨by decide, by decide, by decide⟩

/-- C6 (amended): each advance drops the line sitting in the last
buffer slot (the oldest, topmost row), shifts the remaining lines one
slot toward higher indices and inserts the newly loaded line at slot 0,
so that after the advance for output row `y` slot `i` of the buffer
represents conceptual image row `y + half - i` (the padded real row
when it exists, a synthetic white line otherwise); only the newly
inserted line's content is new. -/
theorem buffer_tracks_rows (stat : List Nat → Nat) (img : GrayImg) (size : Nat) (yEnd : Int)
    {p : List Nat} {L : List (List Nat)}
    (h2 : 2 ≤ size) (hw : 0 < imgWidth img) (hws : imgWidth img ≤ img.stride)
    (hpl : (img.pix.length : Int) ≤ img.stride * imgHeight img)
    (hy0 : img.minY ≤ yEnd)
    (hrun : runMain stat img size yEnd = some (p, L)) :
    (∀ (lines : List (List Nat)) (newLine : List Nat),
      shiftLines lines newLine = newLine :: lines.dropLast) ∧
    L = bufferSpec img size (yEnd - 1) := by
  refine ⟨fun _ _ => rfl, ?_⟩
  unfold runMain at hrun
  split at hrun
  · cases hrun
  · rename_i lines0 hnl
    have hstr1 : (1 : Int) ≤ img.stride := by
      unfold imgWidth at hw hws
      omega
    have hstep : ∀ y s s2, img.minY ≤ y → y < yEnd →
        (s.1.length = img.pix.length ∧
          (∀ j : Nat, (y - img.minY) * img.stride ≤ (j : Int) →
            s.1.get? j = img.pix.get? j) ∧
          s.2 = bufferSpec img size (y - 1)) →
        mainStep stat img size s y = some s2 →
        (s2.1.length = img.pix.length ∧
          (∀ j : Nat, (y + 1 - img.minY) * img.stride ≤ (j : Int) →
            s2.1.get? j = img.pix.get? j) ∧
          s2.2 = bufferSpec img size (y + 1 - 1)) := by
      intro y s s2 hy1 _ hI hf
      obtain ⟨hIl, hIa, hIb⟩ := hI
      unfold mainStep at hf
      split at hf
      · cases hf
      · rename_i row hrs
        split at hf
        · cases hf
        · rename_i q hof
          cases hf
          unfold rowSliceAt at hrs
          split at hrs
          case isFalse => cases hrs
          case isTrue hc =>
            injection hrs with hrow
            have hhalfpos : (0 : Int) ≤ ((size / 2 : Nat) : Int) * img.stride :=
              mul_nonneg (by positivity) (by omega)
            have hoff : (y - img.minY) * img.stride + ((size / 2 : Nat) : Int) * img.stride =
                (y - img.minY + ((size / 2 : Nat) : Int)) * img.stride := by ring
            have hd : y - img.minY + ((size / 2 : Nat) : Int) < imgHeight img := by
              by_contra hge
              push_neg at hge
              have hm := mul_le_mul_of_nonneg_right hge (by omega : (0 : Int) ≤ img.stride)
              have hcomm : img.stride * imgHeight img = imgHeight img * img.stride :=
                mul_comm _ _
              rw [hoff] at hc
              rw [hIl] at hc
              have hc3 := hc.2.2
              linarith
            have hyh2 : y + ((size / 2 : Nat) : Int) < img.maxY := by
              unfold imgHeight at hd
              omega
            have hrow0 : row = (img.pix.drop ((y - img.minY) * img.stride +
                ((size / 2 : Nat) : Int) * img.stride).toNat).take (imgWidth img).toNat := by
              rw [← hrow]
              exact slice_eq_of_agree hIa (le_add_of_nonneg_right hhalfpos) hc.1
            have hwr : padRow size row = windowRow img size (y + ((size / 2 : Nat) : Int)) := by
              unfold windowRow
              rw [if_pos ⟨by omega, hyh2⟩]
              unfold origRow
              have harg : (y + ((size / 2 : Nat) : Int) - img.minY) * img.stride =
                  (y - img.minY) * img.stride + ((size / 2 : Nat) : Int) * img.stride := by
                ring
              rw [harg, ← hrow0]
            have hb2 : shiftLines s.2 (padRow size row) = bufferSpec img size y := by
              rw [hIb, hwr]
              exact bufferSpec_shift img size (by omega) y
            obtain ⟨hql, hqa⟩ := optFold_write_above img hws stat
              (shiftLines s.2 (padRow size row)) size y s.1 q hof
            have hy11 : y + 1 - 1 = y := by ring
            refine ⟨hql.trans hIl, ?_, by rw [hy11]; exact hb2⟩
            intro j hj
            have hge : (y - img.minY) * img.stride ≤ (j : Int) := by
              have hring : (y + 1 - img.minY) * img.stride =
                  (y - img.minY) * img.stride + img.stride := by ring
              rw [hring] at hj
              linarith
            exact (hqa j hj).trans (hIa j hge)
    have hfin := optFold_intRange_ind (mainStep stat img size)
      (fun y st => st.1.length = img.pix.length ∧
        (∀ j : Nat, (y - img.minY) * img.stride ≤ (j : Int) →
          st.1.get? j = img.pix.get? j) ∧
        st.2 = bufferSpec img size (y - 1))
      yEnd (yEnd - img.minY).toNat img.minY (img.pix, lines0) (p, L) rfl hy0
      hstep ⟨rfl, fun _ _ => rfl, newLines_bufferSpec img size hnl⟩ hrun
    exact hfin.2.2

/-- Instantiation of the amended C6 statement: the buffer of the
3-pixel column image after the advance for output row 0 equals the
slot-by-slot specification (slot `i` holds image row `0 + 1 - i`). -/
theorem buffer_tracks_rows_witness :
    [[255, 20, 255], [255, 10, 255], [255, 255, 255]] =
      bufferSpec { minX := 0, minY := 0, maxX := 1, maxY := 3, stride := 1, pix := [10, 20, 30] } 3 ((1 : Int) - 1) :=
  (@buffer_tracks_rows median
    { minX := 0, minY := 0, maxX := 1, maxY := 3, stride := 1, pix := [10, 20, 30] } 3 1
    [255, 20, 30] [[255, 20, 255], [255, 10, 255], [255, 255, 255]]
    (by decide) (by decide) (by decide) (by decide) (by decide) (by decide)).2

end Imagext
